import Mathlib

/-!
Formal model of the Merkle-tree container of OnioNS-common
(src/containers/MerkleTree.cpp, MerkleTree.hpp).

Modelling conventions:

* Record names are lists of characters, ordered lexicographically — the
  order std::string's operator< induces on ASCII names.
* Digests are natural numbers; the SHA-384 compression of the
  concatenation of two 48-byte digests (concatenateHashes) is an abstract
  parameter H : Nat -> Nat -> Nat applied to the two child digests.  Every
  statement below is proved for all H, so nothing depends on properties
  of the hash function.
* The base64 rendering of a digest that the C++ code embeds in JSON
  (Node::getBase64Hash) is injective, so it is modelled by carrying the
  digest itself inside a dedicated JSON constructor (Json.hashVal).
* The while loop of MerkleTree::buildTree and the parent-pointer walk of
  MerkleTree::generatePath are rendered as recursions driven by an
  explicit bound (the initial row length), which strictly exceeds the
  number of iterations either loop can make; the out-of-bounds read
  row[0] that the C++ performs on an empty row, and the dereference of
  an end iterator in generateSpan, are modelled by Option with none
  marking the undefined access.
* vector rows become lists, and a node's parent pointer is recovered
  positionally: the parent of the node at index i of a row is the node
  at index i / 2 of the next row, exactly how buildTree wires parents.
-/

/-- Input record handed to the MerkleTree constructor: the C++ RecordPtr
exposes getName and getHash, which is all the tree reads from it. -/
structure Record where
  name : List Char
  hash : Nat
deriving DecidableEq

/-- Tree vertex (class MerkleTree::Node and its subclass Leaf): a leaf
carries the record name and digest; an internal node carries its digest,
its left child, and an optional right child — buildTree stores nullptr as
the right child of a node made by pairing the odd last element of a row
with itself. -/
inductive Node where
  | leaf (name : List Char) (digest : Nat)
  | inner (digest : Nat) (left : Node) (right : Option Node)

/-- Digest stored in a vertex (Node::getHash). -/
def Node.digest : Node → Nat
  | .leaf _ d => d
  | .inner d _ _ => d

/-- Name of a leaf vertex (Leaf::getName); internal nodes carry no name. -/
def Node.nameOf : Node → List Char
  | .leaf n _ => n
  | .inner _ _ _ => []

/-- Shallow JSON values, the shape of Json::Value as MerkleTree uses it:
null (the default-constructed value), strings, base64-rendered digests
(represented by the digest itself), arrays, and objects as ordered
key-value lists. -/
inductive Json where
  | null
  | str (s : List Char)
  | hashVal (digest : Nat)
  | arr (elements : List Json)
  | obj (fields : List (List Char × Json))

/-- Key "left" as the C++ writes it into Json objects. -/
def kLeft : List Char := ['l', 'e', 'f', 't']

/-- Key "right" as the C++ writes it into Json objects. -/
def kRight : List Char := ['r', 'i', 'g', 'h', 't']

/-- Key "name" of the leaf header object of generatePath. -/
def kName : List Char := ['n', 'a', 'm', 'e']

/-- Key "hash" of the leaf header object of generatePath. -/
def kHash : List Char := ['h', 'a', 's', 'h']

/-- Key "index": the leaf-position field the specification requires in
inclusion proofs; it appears nowhere in the C++ serialization. -/
def kIndex : List Char := ['i', 'n', 'd', 'e', 'x']

/-- Node::asValue: an object holding the base64 digest of each child that
is present ("left" and/or "right"); a leaf has no children, and a
self-paired node has only a left child. -/
def Node.asValue : Node → Json
  | .leaf _ _ => .obj []
  | .inner _ l none => .obj [(kLeft, .hashVal l.digest)]
  | .inner _ l (some r) =>
      .obj [(kLeft, .hashVal l.digest), (kRight, .hashVal r.digest)]

/-- MerkleTree::concatenateHashes: SHA-384 of the concatenation of the two
nodes' digests, abstracted as H applied to the two digests. -/
def concatenateHashes (H : Nat → Nat → Nat) (a b : Node) : Nat :=
  H a.digest b.digest

/-- One pass of the inner for loop of MerkleTree::buildTree: pair adjacent
elements (row[j], row[j+1]); when j+1 falls off the row, reuse row[j] as
the right operand of the hash but store nullptr (none) as the node's
right child — exactly lines 89-96 of MerkleTree.cpp. -/
def pairUp (H : Nat → Nat → Nat) : List Node → List Node
  | [] => []
  | [a] => [.inner (concatenateHashes H a a) a none]
  | a :: b :: rest =>
      .inner (concatenateHashes H a b) a (some b) :: pairUp H rest

/-- The while loop of MerkleTree::buildTree, driven by a fuel bound: while
the row has more than one element, replace it with its paired-up
successor row; then read row[0], whose out-of-bounds failure on an empty
row surfaces as none via head?.  Each pass at least halves a row of two
or more elements, so fuel equal to the initial row length is never
exhausted before the loop exit condition holds. -/
def buildLoop (H : Nat → Nat → Nat) : Nat → List Node → Option Node
  | 0, row => row.head?
  | fuel + 1, row =>
      if row.length ≤ 1 then row.head?
      else buildLoop H fuel (pairUp H row)

/-- Root node produced by MerkleTree::buildTree from a starting row. -/
def buildRoot (H : Nat → Nat → Nat) (row : List Node) : Option Node :=
  buildLoop H row.length row

/-- MerkleTree::buildTree's return value: the digest of row[0] after the
loop; none models the undefined row[0] access on an empty row. -/
def buildTree (H : Nat → Nat → Nat) (row : List Node) : Option Nat :=
  (buildRoot H row).map Node.digest

/-- The leaf row the MerkleTree constructor builds: one Leaf per record,
in input order (leaves_). -/
def mkLeaves (records : List Record) : List Node :=
  records.map fun r => .leaf r.name r.hash

/-- rootHash_ as set by the MerkleTree constructor. -/
def rootHash (H : Nat → Nat → Nat) (records : List Record) : Option Nat :=
  buildTree H (mkLeaves records)

/-- The parent-pointer walk of MerkleTree::generatePath, positionally: the
chain starting at index i of a row lists the current node and continues
at index i / 2 of the paired-up row, stopping at the row of at most one
element (the root row, where the parent pointer is null).  Fuel as in
buildLoop. -/
def chainLoop (H : Nat → Nat → Nat) : Nat → List Node → Nat → List Node
  | 0, row, i => (row[i]?).toList
  | fuel + 1, row, i =>
      if row.length ≤ 1 then (row[i]?).toList
      else (row[i]?).toList ++ chainLoop H fuel (pairUp H row) (i / 2)

/-- Nodes visited by generatePath's while loop for the leaf at index i:
the leaf itself, then each ancestor up to and including the root. -/
def parentChain (H : Nat → Nat → Nat) (row : List Node) (i : Nat) : List Node :=
  chainLoop H row.length row i

/-- MerkleTree::generatePath for the leaf at index i of the leaf row: an
array whose first element carries the leaf's name and base64 digest,
followed by asValue of every node from the leaf up to the root.  none
models dereferencing an out-of-range leaf iterator. -/
def generatePath (H : Nat → Nat → Nat) (leaves : List Node) (i : Nat) :
    Option Json :=
  match leaves[i]? with
  | none => none
  | some leaf =>
      some (.arr (.obj [(kName, .str leaf.nameOf), (kHash, .hashVal leaf.digest)]
            :: (parentChain H leaves i).map Node.asValue))

/-- Index returned by std::lower_bound over leaves_ sorted by name: the
number of leading leaves whose name is strictly below the needle. -/
def lowerBoundIdx (leaves : List Node) (domain : List Char) : Nat :=
  (leaves.takeWhile fun l => decide (l.nameOf < domain)).length

/-- Index returned by std::upper_bound over leaves_ sorted by name: the
number of leading leaves whose name is not strictly above the needle. -/
def upperBoundIdx (leaves : List Node) (domain : List Char) : Nat :=
  (leaves.takeWhile fun l => decide (¬ domain < l.nameOf)).length

/-- MerkleTree::generateSpan: paths for *lowerBound and *upperBound,
packed into an object under "left" and "right".  Either dereference can
hit the end iterator; none models that undefined access. -/
def generateSpan (H : Nat → Nat → Nat) (leaves : List Node)
    (domain : List Char) (lb : Nat) : Option Json := do
  let ub := upperBoundIdx leaves domain
  let lowerPath ← generatePath H leaves lb
  let upperPath ← generatePath H leaves ub
  some (.obj [(kLeft, lowerPath), (kRight, upperPath)])

/-- MerkleTree::generateSubtree: a default (null) value for an empty leaf
row; otherwise a single path when the lower-bound leaf exists and equals
the needle, and a span otherwise. -/
def generateSubtree (H : Nat → Nat → Nat) (leaves : List Node)
    (domain : List Char) : Option Json :=
  if leaves.isEmpty then some .null
  else
    let lb := lowerBoundIdx leaves domain
    match leaves[lb]? with
    | some leaf =>
        if domain < leaf.nameOf then generateSpan H leaves domain lb
        else generatePath H leaves lb
    | none => generateSpan H leaves domain lb

/-- MerkleTree::verifySubtree: the C++ body is a todo comment and
return true — every proof-record pair is accepted. -/
def verifySubtree (_subtree : Json) (_record : Record) : Bool :=
  true

/-- MerkleTree::verifyRoot: the C++ body is a todo comment and
return true — every proof-root pair is accepted. -/
def verifyRoot (_subtree : Json) (_root : Nat) : Bool :=
  true

/-- Hash-consistency invariant of built vertices: an internal node's
digest is H of its children's digests, the left digest standing in twice
when the right child is the stored nullptr of a self-paired node. -/
def Node.wf (H : Nat → Nat → Nat) : Node → Prop
  | .leaf _ _ => True
  | .inner d l none => d = H l.digest l.digest ∧ Node.wf H l
  | .inner d l (some r) => d = H l.digest r.digest ∧ Node.wf H l ∧ Node.wf H r

mutual

/-- Whether a key occurs anywhere in a JSON value, at any nesting depth. -/
def Json.containsKey : Json → List Char → Bool
  | .obj fields, k => Json.fieldsContain fields k
  | .arr xs, k => Json.arrContains xs k
  | _, _ => false

/-- Key search over the fields of an object: the key itself or anywhere
inside a field's value. -/
def Json.fieldsContain : List (List Char × Json) → List Char → Bool
  | [], _ => false
  | (key, v) :: rest, k =>
      key = k || Json.containsKey v k || Json.fieldsContain rest k

/-- Key search over the elements of an array. -/
def Json.arrContains : List Json → List Char → Bool
  | [], _ => false
  | j :: rest, k => Json.containsKey j k || Json.arrContains rest k

end

/-- Number of elements of a JSON array. -/
def Json.arrLen : Json → Nat
  | .arr xs => xs.length
  | _ => 0

/-- Concrete hash function for the demonstration instances below. -/
def Hdemo (a b : Nat) : Nat := 2 * a + 3 * b + 5

/-- Two sorted records, the smallest dataset with distinct neighbours. -/
def recs2 : List Record := [⟨['a'], 1⟩, ⟨['b'], 2⟩]

/-- Three sorted records: the smallest dataset with an odd row. -/
def recs3 : List Record := [⟨['a'], 1⟩, ⟨['b'], 2⟩, ⟨['c'], 3⟩]

/-- Four sorted records, the spec's running example. -/
def recs4 : List Record := [⟨['a'], 1⟩, ⟨['b'], 2⟩, ⟨['c'], 3⟩, ⟨['d'], 4⟩]

/-- Root node of the tree over recs3 under Hdemo, written out: leaves 0-1
pair into the left child, leaf 2 self-pairs into the right child with a
null right pointer. -/
def demoRoot : Node :=
  .inner (Hdemo (Hdemo 1 2) (Hdemo 3 3))
    (.inner (Hdemo 1 2) (.leaf ['a'] 1) (some (.leaf ['b'] 2)))
    (some (.inner (Hdemo 3 3) (.leaf ['c'] 3) none))

/-- Length of the longest Boolean-true prefix, pinned by a witness at
position i: everything before i satisfies p, position i does not. -/
theorem takeWhile_length_eq {α : Type} (p : α → Bool) :
    ∀ (l : List α) (i : Nat) (x : α), l[i]? = some x →
      (∀ (j : Nat) (y : α), j < i → l[j]? = some y → p y = true) →
      p x = false → (l.takeWhile p).length = i
  | [], i, x, hx, _, _ => by simp at hx
  | a :: l, 0, x, hx, _, hpx => by
      simp only [List.getElem?_cons_zero, Option.some_inj] at hx
      subst hx
      simp [List.takeWhile_cons, hpx]
  | a :: l, i + 1, x, hx, hpre, hpx => by
      have ha : p a = true := hpre 0 a (Nat.succ_pos i) (by simp)
      simp only [List.getElem?_cons_succ] at hx
      have := takeWhile_length_eq p l i x hx
        (fun j y hj hy => hpre (j + 1) y (by omega) (by simpa using hy)) hpx
      simp [List.takeWhile_cons, ha, this]

/-- Leaf row of a record list, read positionally. -/
theorem mkLeaves_getElem (records : List Record) (i : Nat) (r : Record)
    (hr : records[i]? = some r) :
    (mkLeaves records)[i]? = some (.leaf r.name r.hash) := by
  simp [mkLeaves, List.getElem?_map, hr]

/-- On a strictly name-sorted record list, std::lower_bound lands exactly
on the record carrying the queried name. -/
theorem lowerBoundIdx_eq (records : List Record) (r : Record) (i : Nat)
    (hsort : List.Pairwise (fun a b : Record => a.name < b.name) records)
    (hr : records[i]? = some r) :
    lowerBoundIdx (mkLeaves records) r.name = i := by
  have hi : i < records.length := by
    by_contra hcon
    rw [List.getElem?_eq_none (by omega)] at hr
    exact Option.noConfusion hr
  have hri : records[i] = r := by
    have := List.getElem?_eq_getElem hi
    rw [hr] at this
    exact (Option.some_inj.mp this).symm
  apply takeWhile_length_eq _ (mkLeaves records) i (.leaf r.name r.hash)
    (mkLeaves_getElem records i r hr)
  · intro j y hj hy
    have hjlen : j < records.length := by omega
    have hy2 : (mkLeaves records)[j]? = some (.leaf records[j].name records[j].hash) :=
      mkLeaves_getElem records j records[j] (List.getElem?_eq_getElem hjlen)
    rw [hy2] at hy
    have hlt : records[j].name < records[i].name :=
      List.pairwise_iff_getElem.mp hsort j i hjlen hi hj
    rw [hri] at hlt
    cases hy
    simp [Node.nameOf, hlt]
  · simp [Node.nameOf]

/-- A leaf row with an occupied position is not empty. -/
theorem mkLeaves_not_empty (records : List Record) (i : Nat) (r : Record)
    (hr : records[i]? = some r) :
    (mkLeaves records).isEmpty = false := by
  cases records with
  | nil => simp at hr
  | cons a l => simp [mkLeaves]

/-- Querying the name of the record at position i of a strictly sorted
record list takes the found branch of generateSubtree: the result is the
single inclusion path of that leaf. -/
theorem generateSubtree_found (H : Nat → Nat → Nat) (records : List Record)
    (r : Record) (i : Nat)
    (hsort : List.Pairwise (fun a b : Record => a.name < b.name) records)
    (hr : records[i]? = some r) :
    generateSubtree H (mkLeaves records) r.name =
      generatePath H (mkLeaves records) i := by
  unfold generateSubtree
  rw [mkLeaves_not_empty records i r hr]
  simp only [Bool.false_eq_true, if_false, lowerBoundIdx_eq records r i hsort hr,
    mkLeaves_getElem records i r hr]
  simp [Node.nameOf]


/-- C1: the claim asks that verification reject every proof inconsistent
with the trusted root, every proof whose starting leaf digest differs
from the expected record digest, and every structurally malformed proof.
The shipped verifiers are stubs: verifySubtree and verifyRoot return true
for every input whatsoever, so no proof is ever rejected — in particular
a bare null value passes as a proof of any record against any root. -/
theorem verify_stubs_accept_everything :
    (∀ (subtree : Json) (record : Record), verifySubtree subtree record = true) ∧
    (∀ (subtree : Json) (root : Nat), verifyRoot subtree root = true) ∧
    verifySubtree Json.null ⟨['a'], 1⟩ = true ∧
    verifyRoot (Json.hashVal 0) 999 = true :=
  ⟨fun _ _ => rfl, fun _ _ => rfl, rfl, rfl⟩

/-- C5: building from an empty record sequence reaches buildTree with an
empty row; the loop is skipped and the function reads row[0] — an
out-of-bounds access on the empty row, modelled by head? returning none.
The claim's promised sentinel absent root never materialises: the C++
returns the result of an undefined read. -/
theorem empty_build_reads_out_of_bounds :
    ∀ H : Nat → Nat → Nat,
      mkLeaves [] = [] ∧
      buildRoot H (mkLeaves []) = none ∧
      buildTree H (mkLeaves []) = none ∧
      rootHash H [] = none :=
  fun _ => ⟨rfl, rfl, rfl, rfl⟩

/-- C7: each construction row is reduced by pairing adjacent elements,
the digest of a pair node being H of its children's digests; the odd
last element is hashed with itself; consequently the root of a 3-leaf
tree is H (H L0 L1) (H L2 L2), for every hash function H. -/
theorem row_pairing_and_three_leaf_root (H : Nat → Nat → Nat)
    (a b : Node) (rest : List Node) (r0 r1 r2 : Record) :
    pairUp H (a :: b :: rest) =
      .inner (H a.digest b.digest) a (some b) :: pairUp H rest ∧
    pairUp H [a] = [.inner (H a.digest a.digest) a none] ∧
    buildTree H (mkLeaves [r0, r1, r2]) =
      some (H (H r0.hash r1.hash) (H r2.hash r2.hash)) :=
  ⟨rfl, rfl, rfl⟩

/-- C9: querying a tree whose leaf row is empty returns the
default-constructed Json value (null): a result distinct from every
inclusion proof (an array) and every span proof (an object), and not a
crash — generateSubtree checks for emptiness before any leaf access. -/
theorem empty_tree_query_returns_distinguished_null :
    ∀ (H : Nat → Nat → Nat) (domain : List Char),
      generateSubtree H (mkLeaves []) domain = some Json.null ∧
      (∀ elements, Json.null ≠ Json.arr elements) ∧
      (∀ fields, Json.null ≠ Json.obj fields) :=
  fun _ _ =>
    ⟨rfl, fun _ h => Json.noConfusion h, fun _ h => Json.noConfusion h⟩

/-- C3 counterexample evidence: on the spec's own example — leaves a, b,
c, d and absent query "b5" — the span's "left" component is the
inclusion path of "c" (the lower_bound, i.e. the successor), identical
to the "right" component, not the path of the predecessor "b" the claim
requires. -/
theorem span_left_is_successor_not_predecessor :
    generateSubtree Hdemo (mkLeaves recs4) ['b', '5'] =
      some (.obj
        [(kLeft, .arr
            [.obj [(kName, .str ['c']), (kHash, .hashVal 3)],
             .obj [],
             .obj [(kLeft, .hashVal 3), (kRight, .hashVal 4)],
             .obj [(kLeft, .hashVal (Hdemo 1 2)), (kRight, .hashVal (Hdemo 3 4))]]),
         (kRight, .arr
            [.obj [(kName, .str ['c']), (kHash, .hashVal 3)],
             .obj [],
             .obj [(kLeft, .hashVal 3), (kRight, .hashVal 4)],
             .obj [(kLeft, .hashVal (Hdemo 1 2)), (kRight, .hashVal (Hdemo 3 4))]])]) :=
  rfl

/-- C6 evidence: querying past the greatest leaf name dereferences the
end iterator (none models the out-of-bounds access), and querying below
the least leaf name yields a span carrying *both* components — each the
path of the least leaf — instead of the claimed upper bound only. -/
theorem outside_range_query_misbehaves :
    generateSubtree Hdemo (mkLeaves recs2) ['z'] = none ∧
    generateSubtree Hdemo (mkLeaves recs2) ['0'] =
      some (.obj
        [(kLeft, .arr
            [.obj [(kName, .str ['a']), (kHash, .hashVal 1)],
             .obj [],
             .obj [(kLeft, .hashVal 1), (kRight, .hashVal 2)]]),
         (kRight, .arr
            [.obj [(kName, .str ['a']), (kHash, .hashVal 1)],
             .obj [],
             .obj [(kLeft, .hashVal 1), (kRight, .hashVal 2)]])]) :=
  ⟨rfl, rfl⟩

/-- C8 counterexample evidence: for the one-record tree the generated
inclusion proof is not the leaf header alone — the parent walk appends
one node entry (the leaf's own asValue, an empty object), so the emitted
array has two elements, not one. -/
theorem single_leaf_path_not_empty :
    generatePath Hdemo (mkLeaves [⟨['a'], 5⟩]) 0 =
      some (.arr [.obj [(kName, .str ['a']), (kHash, .hashVal 5)], .obj []]) ∧
    Json.arrLen ((generatePath Hdemo (mkLeaves [⟨['a'], 5⟩]) 0).getD .null) = 2 :=
  ⟨rfl, rfl⟩

/-- C8 as amended: for every hash function and every single-record tree,
the root digest is the sole leaf's own digest (the reduction loop never
runs), and the generated inclusion proof consists of the leaf's
name-and-digest header followed by exactly one node entry — the leaf's
own, an empty object carrying no sibling hashes. -/
theorem single_leaf_root_and_trivial_path (H : Nat → Nat → Nat) (r : Record) :
    buildTree H (mkLeaves [r]) = some r.hash ∧
    rootHash H [r] = some r.hash ∧
    generatePath H (mkLeaves [r]) 0 =
      some (.arr [.obj [(kName, .str r.name), (kHash, .hashVal r.hash)],
                  .obj []]) :=
  ⟨rfl, rfl, rfl⟩

/-- C4 counterexample evidence: the inclusion proof generateSubtree emits
for the present name "a" contains no "index" key anywhere in its JSON. -/
theorem emitted_inclusion_proof_lacks_index :
    (generateSubtree Hdemo (mkLeaves recs2) ['a']).isSome = true ∧
    Json.containsKey ((generateSubtree Hdemo (mkLeaves recs2) ['a']).getD .null)
      kIndex = false :=
  ⟨rfl, rfl⟩

/-- Node entries never mention an "index" key: asValue only ever writes
"left" and "right", and their values are bare digests. -/
theorem asValue_no_index (n : Node) :
    (Node.asValue n).containsKey kIndex = false := by
  cases n with
  | leaf _ _ => rfl
  | inner d l r => cases r <;> rfl

/-- No entry of a mapped parent chain mentions an "index" key. -/
theorem chain_entries_no_index :
    ∀ chain : List Node,
      Json.arrContains (chain.map Node.asValue) kIndex = false
  | [] => rfl
  | n :: rest => by
      simp only [List.map_cons, Json.arrContains, asValue_no_index n,
        chain_entries_no_index rest, Bool.or_self]

/-- C4 as amended: every inclusion proof generatePath emits carries the
leaf's name and hash in its header but no index field anywhere, so a
span verifier has no encoded positions from which to check adjacency. -/
theorem generated_path_has_name_hash_but_no_index (H : Nat → Nat → Nat)
    (leaves : List Node) (i : Nat) (leaf : Node)
    (hleaf : leaves[i]? = some leaf) :
    (generatePath H leaves i).isSome = true ∧
    Json.containsKey ((generatePath H leaves i).getD .null) kIndex = false ∧
    Json.containsKey ((generatePath H leaves i).getD .null) kName = true ∧
    Json.containsKey ((generatePath H leaves i).getD .null) kHash = true := by
  unfold generatePath
  rw [hleaf]
  refine ⟨rfl, ?_, rfl, rfl⟩
  show (false || Json.arrContains ((parentChain H leaves i).map Node.asValue)
    kIndex) = false
  simp [chain_entries_no_index]

/-- Witness for the amended C4 statement at a concrete input. -/
theorem generated_path_no_index_witness :
    (generatePath Hdemo (mkLeaves recs2) 0).isSome = true ∧
    Json.containsKey ((generatePath Hdemo (mkLeaves recs2) 0).getD .null)
      kIndex = false ∧
    Json.containsKey ((generatePath Hdemo (mkLeaves recs2) 0).getD .null)
      kName = true ∧
    Json.containsKey ((generatePath Hdemo (mkLeaves recs2) 0).getD .null)
      kHash = true :=
  generated_path_has_name_hash_but_no_index Hdemo (mkLeaves recs2) 0
    (.leaf ['a'] 1) rfl

/-- C2: for every hash function, every tree built from a non-empty
strictly name-sorted record list and every position i in it, querying
that record's name yields exactly the inclusion path of leaf i, and
verifying that proof against the record and against the tree's root
digest returns true (the shipped verifiers accept it). -/
theorem inclusion_roundtrip (H : Nat → Nat → Nat) (records : List Record)
    (r : Record) (i : Nat)
    (hsort : List.Pairwise (fun a b : Record => a.name < b.name) records)
    (hr : records[i]? = some r) :
    generateSubtree H (mkLeaves records) r.name =
      generatePath H (mkLeaves records) i ∧
    (generatePath H (mkLeaves records) i).isSome = true ∧
    verifySubtree ((generatePath H (mkLeaves records) i).getD .null) r = true ∧
    verifyRoot ((generatePath H (mkLeaves records) i).getD .null)
      ((rootHash H records).getD 0) = true := by
  refine ⟨generateSubtree_found H records r i hsort hr, ?_, rfl, rfl⟩
  unfold generatePath
  rw [mkLeaves_getElem records i r hr]
  rfl

/-- Witness for C2 at a concrete three-record tree and its middle leaf. -/
theorem inclusion_roundtrip_witness :
    generateSubtree Hdemo (mkLeaves recs3) ['b'] =
      generatePath Hdemo (mkLeaves recs3) 1 ∧
    (generatePath Hdemo (mkLeaves recs3) 1).isSome = true ∧
    verifySubtree ((generatePath Hdemo (mkLeaves recs3) 1).getD .null)
      ⟨['b'], 2⟩ = true ∧
    verifyRoot ((generatePath Hdemo (mkLeaves recs3) 1).getD .null)
      ((rootHash Hdemo recs3).getD 0) = true :=
  inclusion_roundtrip Hdemo recs3 ⟨['b'], 2⟩ 1 (by decide) (by decide)

/-- Pairing one construction row preserves the hash-consistency
invariant: in particular the node built from an odd last element stores
none as its right child while hashing the left digest twice. -/
theorem pairUp_wf (H : Nat → Nat → Nat) :
    ∀ row : List Node, (∀ n ∈ row, Node.wf H n) →
      ∀ m ∈ pairUp H row, Node.wf H m
  | [], _, m, hm => absurd hm (by simp [pairUp])
  | [a], h, m, hm => by
      simp only [pairUp, List.mem_singleton] at hm
      subst hm
      exact ⟨rfl, h a (by simp)⟩
  | a :: b :: rest, h, m, hm => by
      simp only [pairUp, List.mem_cons] at hm
      rcases hm with hm | hm
      · subst hm
        exact ⟨rfl, h a (by simp), h b (by simp)⟩
      · exact pairUp_wf H rest (fun n hn => h n (by simp [hn])) m hm

/-- The buildTree loop only ever returns a hash-consistent root when
started from a hash-consistent row. -/
theorem buildLoop_wf (H : Nat → Nat → Nat) :
    ∀ (fuel : Nat) (row : List Node) (root : Node),
      (∀ n ∈ row, Node.wf H n) → buildLoop H fuel row = some root →
      Node.wf H root
  | 0, row, root, h, he => by
      cases row with
      | nil => simp [buildLoop] at he
      | cons a l =>
          simp only [buildLoop, List.head?_cons, Option.some_inj] at he
          subst he
          exact h a (by simp)
  | fuel + 1, row, root, h, he => by
      simp only [buildLoop] at he
      by_cases hl : row.length ≤ 1
      · rw [if_pos hl] at he
        cases row with
        | nil => simp at he
        | cons a l =>
            simp only [List.head?_cons, Option.some_inj] at he
            subst he
            exact h a (by simp)
      · rw [if_neg hl] at he
        exact buildLoop_wf H fuel (pairUp H row) root (pairUp_wf H row h) he

/-- C10: every tree built from a record list satisfies the invariant that
a node whose stored right child is none (the self-paired odd tail) has
digest H of its left child's digest taken twice, while a node with both
children hashes left then right; and in every emitted proof entry a
none-right node shows only a "left" digest, whereas a two-child node
shows "left" and "right". -/
theorem self_paired_nodes_store_null_right (H : Nat → Nat → Nat)
    (records : List Record) (root : Node)
    (hroot : buildRoot H (mkLeaves records) = some root) :
    Node.wf H root ∧
    (∀ a : Node, pairUp H [a] = [.inner (H a.digest a.digest) a none]) ∧
    (∀ (d : Nat) (l : Node),
        Node.asValue (.inner d l none) = .obj [(kLeft, .hashVal l.digest)]) ∧
    (∀ (d : Nat) (l r : Node),
        Node.asValue (.inner d l (some r)) =
          .obj [(kLeft, .hashVal l.digest), (kRight, .hashVal r.digest)]) := by
  refine ⟨?_, fun _ => rfl, fun _ _ => rfl, fun _ _ _ => rfl⟩
  apply buildLoop_wf H (mkLeaves records).length (mkLeaves records) root _ hroot
  intro n hn
  simp only [mkLeaves, List.mem_map] at hn
  obtain ⟨r, _, hr⟩ := hn
  rw [← hr]
  trivial

/-- Witness for C10 at the three-record tree, whose root self-pairs its
third leaf. -/
theorem self_paired_nodes_witness :
    Node.wf Hdemo demoRoot ∧
    (∀ a : Node, pairUp Hdemo [a] =
      [.inner (Hdemo a.digest a.digest) a none]) ∧
    (∀ (d : Nat) (l : Node),
        Node.asValue (.inner d l none) = .obj [(kLeft, .hashVal l.digest)]) ∧
    (∀ (d : Nat) (l r : Node),
        Node.asValue (.inner d l (some r)) =
          .obj [(kLeft, .hashVal l.digest), (kRight, .hashVal r.digest)]) :=
  self_paired_nodes_store_null_right Hdemo recs3 demoRoot rfl
